import Mathlib

/-!
Verification of the `@websnacksjs/i18n` message-resolution engine.

The definitions below are a shallow embedding of the TypeScript sources
`packages/i18n/src/i18n.ts`, `packages/i18n/src/utils/locales.ts` and
`packages/i18n/src/utils/dictionary.ts`.  JavaScript strings are modelled
as Lean `String` (with helper functions operating on the underlying
`List Char`), JSON values as the inductive `Json`, JavaScript objects as
insertion-ordered association lists, thrown exceptions as `Except` errors,
and a JavaScript crash from dereferencing `undefined` as an `Option.none`
result.  Literal brace characters in string literals are written with the
escapes \x7b and \x7d.
-/

set_option autoImplicit false

namespace WebsnacksI18n

/-! ## Character-list string helpers -/

/-- Does the character list start with the given pattern? -/
def startsWithL : List Char → List Char → Bool
  | [], _ => true
  | _ :: _, [] => false
  | p :: ps, c :: cs => p == c && startsWithL ps cs

/-- Does the character list contain the pattern as a contiguous substring?
Models the JavaScript `String.prototype.includes` used by
`validateMessagesUrlTemplate`. -/
def containsSubL (pat : List Char) : List Char → Bool
  | [] => pat.isEmpty
  | c :: cs => startsWithL pat (c :: cs) || containsSubL pat cs

/-- Replace all non-overlapping occurrences of a (nonempty) pattern,
scanning left to right.  Models `String.prototype.replaceAll` with a plain
string pattern, as used to build message source URLs. -/
def replaceAllL (pat rep : List Char) : List Char → List Char
  | [] => []
  | c :: cs =>
    if h : pat ≠ [] ∧ startsWithL pat (c :: cs) = true then
      have hp : 0 < pat.length := by
        cases pat with
        | nil => exact absurd rfl h.1
        | cons a as => simp
      rep ++ replaceAllL pat rep (List.drop pat.length (c :: cs))
    else
      c :: replaceAllL pat rep cs
termination_by l => l.length
decreasing_by
  · simp only [List.length_drop, List.length_cons]
    omega
  · simp

/-- String-level `replaceAll`. -/
def replaceAllS (s pat rep : String) : String :=
  String.mk (replaceAllL pat.data rep.data s.data)

/-- Split a character list at every occurrence of the separator character.
Always returns at least one (possibly empty) part; models the behaviour of
JavaScript `String.prototype.split` with a single-character separator. -/
def splitSep (sep : Char) : List Char → List (List Char)
  | [] => [[]]
  | c :: cs =>
    if c == sep then [] :: splitSep sep cs
    else
      match splitSep sep cs with
      | [] => [[c]]
      | t :: ts => (c :: t) :: ts

/-- Join parts with the separator character (inverse of `splitSep`). -/
def joinSep (sep : Char) : List (List Char) → List Char
  | [] => []
  | [p] => p
  | p :: ps => p ++ sep :: joinSep sep ps

/-! ## Locale algebra

Modelled from the spec: the source functions in `utils/locales.ts` delegate
validation and maximization to the host runtime's `Intl.Locale`
implementation, which is not part of this repository.  Following the spec
(§4.1 and the glossary), a locale identifier is a dash-separated tag of a
mandatory language subtag and optional script and region subtags, each
matching the standard subtag shape, and maximization ("Add Likely
Subtags") deterministically fills the missing script and/or region from a
canonical likely-subtags registry keyed by language.  The registry below
covers the languages exercised by the spec's scenarios; identifiers are
modelled in their canonical case. -/

def isLowerAlpha (c : Char) : Bool := 'a' ≤ c && c ≤ 'z'

def isUpperAlpha (c : Char) : Bool := 'A' ≤ c && c ≤ 'Z'

def isDigitChar (c : Char) : Bool := '0' ≤ c && c ≤ '9'

/-- Shape of a language subtag: two to eight lowercase letters. -/
def isLanguageChars (cs : List Char) : Bool :=
  decide (2 ≤ cs.length) && decide (cs.length ≤ 8) && cs.all isLowerAlpha

/-- Shape of a script subtag: four letters, title-cased. -/
def isScriptChars (cs : List Char) : Bool :=
  match cs with
  | [c0, c1, c2, c3] => isUpperAlpha c0 && isLowerAlpha c1 && isLowerAlpha c2 && isLowerAlpha c3
  | _ => false

/-- Shape of a region subtag: two uppercase letters or three digits. -/
def isRegionChars (cs : List Char) : Bool :=
  match cs with
  | [c0, c1] => isUpperAlpha c0 && isUpperAlpha c1
  | [c0, c1, c2] => isDigitChar c0 && isDigitChar c1 && isDigitChar c2
  | _ => false

/-- A parsed BCP 47 / RFC 5646 locale tag. -/
structure LocaleTag where
  language : List Char
  script : Option (List Char)
  region : Option (List Char)
  deriving DecidableEq

/-- Classify the dash-separated subtag parts of a locale identifier. -/
def parseSubtags (parts : List (List Char)) : Option LocaleTag :=
  match parts with
  | [l] => if isLanguageChars l then some ⟨l, none, none⟩ else none
  | [l, x] =>
    if isLanguageChars l then
      if isScriptChars x then some ⟨l, some x, none⟩
      else if isRegionChars x then some ⟨l, none, some x⟩
      else none
    else none
  | [l, x, y] =>
    if isLanguageChars l && isScriptChars x && isRegionChars y then
      some ⟨l, some x, some y⟩
    else none
  | _ => none

def parseLocale (s : String) : Option LocaleTag :=
  parseSubtags (splitSep '-' s.data)

/-- Modelled from the spec: the CLDR likely-subtags registry consumed by
`Intl.Locale.prototype.maximize`, restricted to the languages appearing in
the spec's scenarios and the repository's test fixtures. -/
def likelySubtags (language : List Char) : Option (List Char × List Char) :=
  match language with
  | ['e', 'n'] => some ("Latn".data, "US".data)
  | ['f', 'r'] => some ("Latn".data, "FR".data)
  | ['d', 'e'] => some ("Latn".data, "DE".data)
  | _ => none

/-- Fill the missing script and/or region of a tag from the likely-subtags
registry; a language missing from the registry is left untouched. -/
def fillTag (t : LocaleTag) : LocaleTag :=
  match likelySubtags t.language with
  | none => t
  | some (s0, r0) =>
    { language := t.language
      script := match t.script with | some s => some s | none => some s0
      region := match t.region with | some r => some r | none => some r0 }

/-- The subtag parts of a tag, in rendering order. -/
def tagParts (t : LocaleTag) : List (List Char) :=
  t.language ::
    (match t.script, t.region with
     | some s, some r => [s, r]
     | some s, none => [s]
     | none, some r => [r]
     | none, none => [])

def renderTag (t : LocaleTag) : String :=
  String.mk (joinSep '-' (tagParts t))

/-- Source `isValidRfc5646Locale`: true iff the identifier parses
(`new Intl.Locale(locale)` does not throw). -/
def isValidRfc5646Locale (s : String) : Bool :=
  (parseLocale s).isSome

/-- Source `maximizeLocale`: maximize via Add Likely Subtags; `none`
models the exception thrown for an invalid identifier. -/
def maximizeLocale (s : String) : Option String :=
  (parseLocale s).map (fun t => renderTag (fillTag t))

/-- Source `isMaximizedLocale`: compares a locale with its maximization;
`none` models the exception thrown for an invalid identifier. -/
def isMaximizedLocale (s : String) : Option Bool :=
  (maximizeLocale s).map (fun m => m == s)

/-! ## JSON values and JavaScript object semantics -/

/-- A JSON value, as produced by `JSON.parse`. -/
inductive Json where
  | null
  | bool (b : Bool)
  | num (n : Int)
  | str (s : String)
  | arr (elems : List Json)
  | dict (entries : List (String × Json))

/-- The JavaScript `typeof` operator restricted to JSON values. -/
def jsTypeof : Json → String
  | Json.null => "object"
  | Json.bool _ => "boolean"
  | Json.num _ => "number"
  | Json.str _ => "string"
  | Json.arr _ => "object"
  | Json.dict _ => "object"

/-- Strict equality against the JavaScript `null` literal. -/
def jsIsNull : Json → Bool
  | Json.null => true
  | _ => false

/-- Source `isDictionary` (utils/dictionary.ts):
`typeof value === "object" && value !== null`. -/
def isDictionary (value : Json) : Bool :=
  jsTypeof value == "object" && !jsIsNull value

/-- JavaScript truthiness of a JSON value. -/
def jsTruthy : Json → Bool
  | Json.null => false
  | Json.bool b => b
  | Json.num n => n != 0
  | Json.str s => s != ""
  | Json.arr _ => true
  | Json.dict _ => true

/-- Truthiness of a possibly-`undefined` value. -/
def jsTruthyOpt : Option Json → Bool
  | none => false
  | some v => jsTruthy v

/-- Read a property from an insertion-ordered association list modelling a
JavaScript object (object keys are unique, so first match suffices). -/
def objGet {α : Type} : List (String × α) → String → Option α
  | [], _ => none
  | (k', v) :: rest, k => if k' == k then some v else objGet rest k

def objHasKey {α : Type} (m : List (String × α)) (k : String) : Bool :=
  (objGet m k).isSome

/-- Overwrite the value stored at an existing key. -/
def objUpdate {α : Type} : List (String × α) → String → α → List (String × α)
  | [], _, _ => []
  | (k', v') :: rest, k, v =>
    if k' == k then (k', v) :: rest else (k', v') :: objUpdate rest k v

/-- JavaScript property assignment `obj[k] = v`: updates in place when the
key exists, otherwise appends (preserving key insertion order). -/
def objInsert {α : Type} (m : List (String × α)) (k : String) (v : α) : List (String × α) :=
  if objHasKey m k then objUpdate m k v else m ++ [(k, v)]

/-- `Object.fromEntries`: later entries for a duplicated key overwrite the
value while the key keeps its first position. -/
def objFromEntriesAux {α : Type} (acc : List (String × α)) : List (String × α) → List (String × α)
  | [] => acc
  | (k, v) :: rest => objFromEntriesAux (objInsert acc k v) rest

def objFromEntries {α : Type} (entries : List (String × α)) : List (String × α) :=
  objFromEntriesAux [] entries

/-- Insertion-ordered deduplication, as performed by `new Set(...)`. -/
def dedupFirstAux (seen : List String) : List String → List String
  | [] => []
  | x :: xs =>
    if seen.contains x then dedupFirstAux seen xs
    else x :: dedupFirstAux (x :: seen) xs

def dedupFirst (l : List String) : List String :=
  dedupFirstAux [] l

/-! ## Dictionary lookup (utils/dictionary.ts) -/

/-- Canonical-array-index / string-property semantics of reading `v[k]`
for a JSON array value: numeric index properties and `length`. -/
def arrIndex (elems : List Json) (k : String) : Option Json :=
  if k == "length" then some (Json.num (Int.ofNat elems.length))
  else
    match k.toNat? with
    | none => none
    | some i => if toString i == k then elems.get? i else none

/-- Reading `s[k]` on a JavaScript string primitive: character index
properties and `length`. -/
def strIndex (s : String) (k : String) : Option Json :=
  if k == "length" then some (Json.num (Int.ofNat s.data.length))
  else
    match k.toNat? with
    | none => none
    | some i =>
      if toString i == k then (s.data.get? i).map (fun c => Json.str (String.mk [c]))
      else none

/-- JavaScript property read `v[k]` on a possibly-`undefined` JSON value.
Reading a property of `undefined` or `null` throws a `TypeError`; reading
an absent property yields `undefined` (`Option.none`). -/
def jsIndex : Option Json → String → Except String (Option Json)
  | none, _ => Except.error "TypeError: cannot read properties of undefined"
  | some Json.null, _ => Except.error "TypeError: cannot read properties of null"
  | some (Json.dict entries), k => Except.ok (objGet entries k)
  | some (Json.arr elems), k => Except.ok (arrIndex elems k)
  | some (Json.str s), k => Except.ok (strIndex s k)
  | some (Json.num _), _ => Except.ok none
  | some (Json.bool _), _ => Except.ok none

/-- Source `lookupValue`, processing the dot-separated segments produced
by `key.split(".")`.  The first segment indexes the dictionary directly;
when further segments remain the source recurses on `dictionary[prefixSeg]`
with the remaining segments rejoined (splitting again on the next call, so
segment-wise recursion is equivalent).  The TypeScript `as string` casts
have no runtime effect, so the result is the raw (possibly-`undefined`)
value found at the path. -/
def lookupValueSegs (dictionary : Option Json) : List String → Except String (Option Json)
  | [] => Except.ok none
  | [p] => jsIndex dictionary p
  | p :: rest => do
    let subrecord ← jsIndex dictionary p
    lookupValueSegs subrecord rest

def lookupValue (dictionary : Option Json) (key : String) : Except String (Option Json) :=
  lookupValueSegs dictionary ((splitSep '.' key.data).map String.mk)

/-! ## Errors thrown by the engine

Each constructor stands for one `throw new Error(...)` site of the source;
the constructor arguments are exactly the data interpolated into the
thrown message text. -/

inductive I18nError where
  | emptySupportedLocales
  | invalidSupportedLocales (invalidLocales : List String)
  | missingUrlPlaceholders (missing : List String)
  | invalidLocale (locale : String)
  | noDeclaredLocaleMatches (maximized : String) (requested : String)
  | undeclaredNamespaces (namespaces : List String)
  | detectLocaleUnavailable
  | badResponse (status : Nat)
  | malformedMessages (sourceUrl : String) (payload : Json)
  | loadFailed (cause : I18nError)
  | malformedKey (key : String)
  | undeclaredKeyNamespace (key : String) (ns : String)
  | noMessagesForNamespace (ns : String)
  | messageNotFound (ns : String) (selector : String)
  | missingSubstitution (placeholder : String)
  | jsError (message : String)

/-! ## Placeholder substitution (i18n.ts `substitutePlaceholders`)

The source replaces with `message.replaceAll(/{{(.+)}}/g, ...)`.  The
scanner below implements that regex faithfully: at each position where
two braces open a candidate match, the greedy `.+` captures up to the
LAST closing brace pair on the same line (a dot never matches a line
terminator) provided the capture is nonempty; when no match is possible
there the engine advances by one character.  The replacement callback
throws when the captured placeholder has no truthy substitution. -/

/-- Index of the start of the last `\x7d\x7d` pair in the list, if any. -/
def lastBracePos : List Char → Option Nat
  | [] => none
  | [_] => none
  | c0 :: c1 :: rest =>
    match lastBracePos (c1 :: rest) with
    | some j => some (j + 1)
    | none => if c0 == '}' && c1 == '}' then some 0 else none

/-- Given the characters following an opening `\x7b\x7b`, return the
greedy capture of `(.+)` and its length, or `none` when the regex cannot
match at this position. -/
def findGreedy (cs : List Char) : Option (List Char × Nat) :=
  let line := cs.takeWhile (fun c => c != '\n' && c != '\r')
  match lastBracePos line with
  | none => none
  | some i => if 1 ≤ i then some (line.take i, i) else none

def substAux (substitutions : List (String × String)) : List Char → Except I18nError (List Char)
  | [] => Except.ok []
  | [c] => Except.ok [c]
  | c0 :: c1 :: rest =>
    if c0 == '{' && c1 == '{' then
      match findGreedy rest with
      | none => (substAux substitutions (c1 :: rest)).map (fun t => c0 :: t)
      | some (cap, i) =>
        let placeholder := String.mk cap
        match objGet substitutions placeholder with
        | some v =>
          if v == "" then Except.error (I18nError.missingSubstitution placeholder)
          else (substAux substitutions (rest.drop (i + 2))).map (fun t => v.data ++ t)
        | none => Except.error (I18nError.missingSubstitution placeholder)
    else (substAux substitutions (c1 :: rest)).map (fun t => c0 :: t)
termination_by l => l.length
decreasing_by
  · simp
  · simp only [List.length_drop, List.length_cons]
    omega
  · simp

/-- Source `substitutePlaceholders`. -/
def substitutePlaceholders (message : String) (substitutions : List (String × String)) :
    Except I18nError String :=
  (substAux substitutions message.data).map String.mk

/-! ## The I18n engine (i18n.ts) -/

/-- Engine state.  `supported` models the private `#supportedLocales`
object (maximized key, `declaredAs` value), `nsDeclared` the private
`#namespaces` set, and `loadedMessages` the private `#loadedMessages`
cache (locale key, then namespace key). -/
structure I18n where
  supported : List (String × String)
  nsDeclared : List String
  loadedMessages : List (String × List (String × Json))
  messagesUrlTemplate : String

/-- Source `validateSupportedLocales`. -/
def validateSupportedLocales (supportedLocales : List String) : Except I18nError Unit :=
  if supportedLocales.isEmpty then Except.error I18nError.emptySupportedLocales
  else
    let invalidLocales := supportedLocales.filter (fun locale => !isValidRfc5646Locale locale)
    if invalidLocales.isEmpty then Except.ok ()
    else Except.error (I18nError.invalidSupportedLocales invalidLocales)

/-- Source `validateMessagesUrlTemplate`. -/
def validateMessagesUrlTemplate (messagesUrlTemplate : String) : Except I18nError Unit :=
  let missing :=
    ([":locale", ":namespace"] : List String).filter
      (fun ph => !containsSubL ph.data messagesUrlTemplate.data)
  if missing.isEmpty then Except.ok ()
  else Except.error (I18nError.missingUrlPlaceholders missing)

/-- The entry list `supportedLocales.map(locale => [maximizeLocale(locale),
\x7b declaredAs: locale \x7d])`; a `maximizeLocale` exception propagates. -/
def buildSupportedEntries : List String → Except I18nError (List (String × String))
  | [] => Except.ok []
  | locale :: rest =>
    match maximizeLocale locale with
    | none => Except.error (I18nError.invalidLocale locale)
    | some m => (buildSupportedEntries rest).map (fun es => (m, locale) :: es)

/-- The `I18n` constructor.  The `messagesUrlTemplate` argument is the
template string after the environment-dependent default has been applied
(`guessMessagesUrlPatternFromEnv` probes ambient globals and is outside
this model). -/
def mkI18n (supportedLocales namespaces : List String) (messagesUrlTemplate : String) :
    Except I18nError I18n := do
  validateSupportedLocales supportedLocales
  let entries ← buildSupportedEntries supportedLocales
  let supported := objFromEntries entries
  validateMessagesUrlTemplate messagesUrlTemplate
  Except.ok
    { supported := supported
      nsDeclared := dedupFirst namespaces
      loadedMessages :=
        objFromEntries ((supported.map Prod.fst).map (fun l => (l, ([] : List (String × Json)))))
      messagesUrlTemplate := messagesUrlTemplate }

/-- Public method `supportedLocales()`: `Object.keys(this.#supportedLocales)`. -/
def supportedLocales (e : I18n) : List String :=
  e.supported.map Prod.fst

/-- Public method `isSupportedLocale`; `none` models the exception for an
invalid candidate. -/
def isSupportedLocale (e : I18n) (value : String) : Option Bool :=
  (maximizeLocale value).map (fun m => (supportedLocales e).contains m)

/-- Private method `#normalizeLocale`. -/
def normalizeLocale (e : I18n) (locale : String) : Except I18nError String :=
  if !isValidRfc5646Locale locale then Except.error (I18nError.invalidLocale locale)
  else
    match maximizeLocale locale with
    | none => Except.error (I18nError.invalidLocale locale)
    | some maximized =>
      if (supportedLocales e).contains maximized then Except.ok maximized
      else Except.error (I18nError.noDeclaredLocaleMatches maximized locale)

/-- Private method `#validateNamespaces`:
`Array.from(new Set(namespaces).difference(this.#namespaces))`. -/
def validateNamespaces (e : I18n) (namespaces : List String) : Except I18nError Unit :=
  let undeclared := (dedupFirst namespaces).filter (fun ns => !e.nsDeclared.contains ns)
  if undeclared.isEmpty then Except.ok ()
  else Except.error (I18nError.undeclaredNamespaces undeclared)

/-- The external message source: maps a resolved URL to the JSON-decoded
payload or to the error thrown while fetching, reading or parsing it
(`bad response (status code ...)`, file-system or `JSON.parse` failures). -/
def Oracle : Type := String → Except I18nError Json

/-- URL resolution inside `#fetchMessages`:
`pathname.replaceAll(":locale", declaredAs).replaceAll(":namespace", namespace)`. -/
def buildSourceUrl (e : I18n) (declaredAs ns : String) : String :=
  replaceAllS (replaceAllS e.messagesUrlTemplate ":locale" declaredAs) ":namespace" ns

/-- The fetch-and-store path of `#fetchMessages`, taken on a cache miss.
The result triple is (outcome, new engine state, whether the source was
consulted); `none` models the crash of the non-null-asserted write
`this.#loadedMessages[locale]![namespace]` when no cache entry exists for
the locale. -/
def fetchFromSource (oracle : Oracle) (e : I18n) (locale declaredAs ns : String) :
    Option (Except I18nError Json × I18n × Bool) :=
  let sourceUrl := buildSourceUrl e declaredAs ns
  match oracle sourceUrl with
  | Except.error err => some (Except.error err, e, true)
  | Except.ok messages =>
    if isDictionary messages then
      match objGet e.loadedMessages locale with
      | none => none
      | some cached =>
        some (Except.ok messages,
          { e with loadedMessages := objInsert e.loadedMessages locale (objInsert cached ns messages) },
          true)
    else some (Except.error (I18nError.malformedMessages sourceUrl messages), e, true)

/-- Private method `#fetchMessages`: return the cached dictionary when the
cache holds a truthy value for the (locale, namespace) pair, otherwise
fetch from the source. -/
def fetchMessages (oracle : Oracle) (e : I18n) (locale declaredAs ns : String) :
    Option (Except I18nError Json × I18n × Bool) :=
  match objGet e.loadedMessages locale with
  | some cachedMessages =>
    match objGet cachedMessages ns with
    | some v =>
      if jsTruthy v then some (Except.ok v, e, false)
      else fetchFromSource oracle e locale declaredAs ns
    | none => fetchFromSource oracle e locale declaredAs ns
  | none => fetchFromSource oracle e locale declaredAs ns

/-- The per-namespace fetch loop of `#loadMessages` (a sequential
linearization of its `Promise.all`; the first rejection determines the
overall result).  Each failure is wrapped by the per-namespace `.catch`
into a `failed to load messages: ...` error. -/
def fetchAll (oracle : Oracle) (e : I18n) (locale declaredAs : String) :
    List String → Option (Except I18nError (List (String × Json)) × I18n)
  | [] => some (Except.ok [], e)
  | ns :: rest =>
    match fetchMessages oracle e locale declaredAs ns with
    | none => none
    | some (Except.error err, e', _) => some (Except.error (I18nError.loadFailed err), e')
    | some (Except.ok msgs, e', _) =>
      match fetchAll oracle e' locale declaredAs rest with
      | none => none
      | some (Except.error err, e'') => some (Except.error err, e'')
      | some (Except.ok entries, e'') => some (Except.ok ((ns, msgs) :: entries), e'')

/-- Private method `#loadMessages`: re-maximize the locale, find its
`declaredAs` string (the `?? \x7b\x7d` destructuring makes both a missing
entry and an empty declared string fail the `!declaredAs` truthiness
test), then load the requested namespaces plus `"common"`. -/
def loadMessagesInternal (oracle : Oracle) (e : I18n) (locale : String)
    (namespaces : List String) : Option (Except I18nError (List (String × Json)) × I18n) :=
  match maximizeLocale locale with
  | none => some (Except.error (I18nError.invalidLocale locale), e)
  | some maximizedLocale =>
    match objGet e.supported maximizedLocale with
    | none => some (Except.error (I18nError.noDeclaredLocaleMatches maximizedLocale locale), e)
    | some declaredAs =>
      if declaredAs == "" then
        some (Except.error (I18nError.noDeclaredLocaleMatches maximizedLocale locale), e)
      else
        match fetchAll oracle e maximizedLocale declaredAs (namespaces ++ ["common"]) with
        | none => none
        | some (Except.error err, e') => some (Except.error err, e')
        | some (Except.ok entries, e') => some (Except.ok (objFromEntries entries), e')

/-- Public method `loadMessages`.  A `none` locale models the call without
an explicit locale in a non-browser environment, where `#detectLocale`
throws before any further work.  On success the result carries the
namespace-to-dictionary object closed over by the returned translation
function together with the resolved locale. -/
def loadMessages (oracle : Oracle) (e : I18n) (locale : Option String)
    (namespaces : List String) :
    Option (Except I18nError (List (String × Json) × String) × I18n) :=
  match validateNamespaces e namespaces with
  | Except.error err => some (Except.error err, e)
  | Except.ok _ =>
    match locale with
    | none => some (Except.error I18nError.detectLocaleUnavailable, e)
    | some requested =>
      match normalizeLocale e requested with
      | Except.error err => some (Except.error err, e)
      | Except.ok loc =>
        match loadMessagesInternal oracle e loc namespaces with
        | none => none
        | some (Except.error err, e') => some (Except.error err, e')
        | some (Except.ok messages, e') => some (Except.ok (messages, loc), e')

/-- Private method `#parseKey`, implementing the anchored regex
`((?<namespace>[a-z]+):)?(?<selector>.*)` with the `i` flag: an optional
leading run of ASCII letters directly followed by a colon names the
namespace (backtracking cannot produce a shorter run, since a colon is
not a letter), and the selector is the rest of the line. -/
def parseKey (key : String) (namespaces : List String) : Except I18nError (String × String) :=
  let line := key.data.takeWhile (fun c => c != '\n' && c != '\r')
  let alphaRun := line.takeWhile (fun c => isLowerAlpha c || isUpperAlpha c)
  let hasNs := !alphaRun.isEmpty && (line.drop alphaRun.length).head? == some ':'
  let nsStr := if hasNs then String.mk alphaRun else "common"
  let selector := String.mk (if hasNs then line.drop (alphaRun.length + 1) else line)
  if selector == "" then Except.error (I18nError.malformedKey key)
  else if nsStr == "common" || namespaces.contains nsStr then Except.ok (nsStr, selector)
  else Except.error (I18nError.undeclaredKeyNamespace key nsStr)

/-- The body of the translation function `t` returned by `loadMessages`,
applied to the closed-over `messages` object and `namespaces` list:
parse the key, require a truthy namespace dictionary, look up the
selector, require a truthy result, then substitute placeholders (a
non-string truthy lookup result makes `message.replaceAll` throw). -/
def tApply (messages : List (String × Json)) (namespaces : List String) (key : String)
    (substitutions : List (String × String)) : Except I18nError String :=
  match parseKey key namespaces with
  | Except.error err => Except.error err
  | Except.ok (ns, selector) =>
    if !jsTruthyOpt (objGet messages ns) then Except.error (I18nError.noMessagesForNamespace ns)
    else
      match objGet messages ns with
      | none => Except.error (I18nError.noMessagesForNamespace ns)
      | some nsMessages =>
        match lookupValue (some nsMessages) selector with
        | Except.error msg => Except.error (I18nError.jsError msg)
        | Except.ok message =>
          if !jsTruthyOpt message then Except.error (I18nError.messageNotFound ns selector)
          else
            match message with
            | some (Json.str s) => substitutePlaceholders s substitutions
            | _ => Except.error (I18nError.jsError "TypeError: message.replaceAll is not a function")

/-! ## Test fixture (tests/fixtures.ts, "base") -/

def fixtureTemplate : String := "file:///messages/:locale/:namespace.json"

def fixtureEngine : Except I18nError I18n :=
  mkI18n ["en", "fr", "fr-Arab"] ["drama"] fixtureTemplate

/-- The successfully constructed fixture engine. -/
def fixtureI18n : I18n :=
  match fixtureEngine with
  | Except.ok e => e
  | Except.error _ =>
    { supported := [], nsDeclared := [], loadedMessages := [], messagesUrlTemplate := "" }

/-- A message source that always serves one fixed common dictionary. -/
def fixtureDict : Json :=
  Json.dict [("hello", Json.str "Hello, \x7b\x7bname\x7d\x7d!")]

def fixtureOracle : Oracle := fun _ => Except.ok fixtureDict

/-- The fixture engine after `common` messages for `en-Latn-US` were
fetched once from `fixtureOracle` and stored in the cache. -/
def fixtureFetched : I18n :=
  { fixtureI18n with
      loadedMessages :=
        objInsert fixtureI18n.loadedMessages "en-Latn-US"
          (objInsert [] "common" fixtureDict) }

/-! ## Lemmas about JavaScript object semantics -/

theorem objGet_append {α : Type} (a b : List (String × α)) (k : String) :
    objGet (a ++ b) k = match objGet a k with | some v => some v | none => objGet b k := by
  induction a with
  | nil => simp [objGet]
  | cons p rest ih =>
    obtain ⟨k', v'⟩ := p
    by_cases h : k' == k <;> simp [objGet, h, ih]

theorem objGet_eq_none_iff {α : Type} (m : List (String × α)) (k : String) :
    objGet m k = none ↔ ¬ k ∈ m.map Prod.fst := by
  induction m with
  | nil => simp [objGet]
  | cons p rest ih =>
    obtain ⟨k', v'⟩ := p
    by_cases h : k' = k
    · simp [objGet, beq_iff_eq, h]
    · have h2 : ¬ k = k' := fun hh => h hh.symm
      simp [objGet, beq_iff_eq, h, h2, ih]

theorem objGet_none_of_hasKey_false {α : Type} {m : List (String × α)} {k : String}
    (h : objHasKey m k = false) : objGet m k = none := by
  rw [objHasKey] at h
  cases hg : objGet m k with
  | none => rfl
  | some v => rw [hg] at h; simp at h

theorem objHasKey_iff_mem {α : Type} (m : List (String × α)) (k : String) :
    objHasKey m k = true ↔ k ∈ m.map Prod.fst := by
  rw [objHasKey]
  cases hg : objGet m k with
  | none =>
    have := (objGet_eq_none_iff m k).mp hg
    simp [this]
  | some v =>
    have : ¬ objGet m k = none := by simp [hg]
    have hmem : k ∈ m.map Prod.fst := by
      by_contra hnm
      exact this ((objGet_eq_none_iff m k).mpr hnm)
    simp [hmem]

theorem objGet_eq_none_of_not_mem {α : Type} (m : List (String × α)) (k : String)
    (h : ¬ k ∈ m.map Prod.fst) : objGet m k = none :=
  (objGet_eq_none_iff m k).mpr h

theorem objGet_isSome_of_mem {α : Type} (m : List (String × α)) (k : String)
    (h : k ∈ m.map Prod.fst) : (objGet m k).isSome = true :=
  (objHasKey_iff_mem m k).mpr h

theorem objUpdate_map_fst {α : Type} (m : List (String × α)) (k : String) (v : α) :
    (objUpdate m k v).map Prod.fst = m.map Prod.fst := by
  induction m with
  | nil => rfl
  | cons p rest ih =>
    obtain ⟨k', v'⟩ := p
    by_cases h : k' == k <;> simp [objUpdate, h, ih]

theorem objGet_objUpdate_self {α : Type} (m : List (String × α)) (k : String) (v : α)
    (h : objHasKey m k = true) : objGet (objUpdate m k v) k = some v := by
  induction m with
  | nil => simp [objHasKey, objGet] at h
  | cons p rest ih =>
    obtain ⟨k', v'⟩ := p
    by_cases hk : k' == k
    · simp [objUpdate, objGet, hk]
    · simp only [objHasKey, objGet, hk, if_neg, Bool.false_eq_true] at h
      simp [objUpdate, objGet, hk, ih h]

theorem objGet_objInsert_self {α : Type} (m : List (String × α)) (k : String) (v : α) :
    objGet (objInsert m k v) k = some v := by
  unfold objInsert
  by_cases h : objHasKey m k
  · simp [h, objGet_objUpdate_self m k v h]
  · simp only [h, if_neg, Bool.false_eq_true, if_false]
    rw [objGet_append]
    have hn : objGet m k = none := objGet_none_of_hasKey_false (by simpa using h)
    simp [hn, objGet]

theorem objInsert_map_fst_of_hasKey {α : Type} (m : List (String × α)) (k : String) (v : α)
    (h : objHasKey m k = true) : (objInsert m k v).map Prod.fst = m.map Prod.fst := by
  simp [objInsert, h, objUpdate_map_fst]

theorem objInsert_map_fst_of_not_hasKey {α : Type} (m : List (String × α)) (k : String) (v : α)
    (h : objHasKey m k = false) : (objInsert m k v).map Prod.fst = m.map Prod.fst ++ [k] := by
  simp [objInsert, h]

theorem objInsert_map_fst_of_mem {α : Type} (m : List (String × α)) (k : String) (v : α)
    (h : k ∈ m.map Prod.fst) : (objInsert m k v).map Prod.fst = m.map Prod.fst :=
  objInsert_map_fst_of_hasKey m k v ((objHasKey_iff_mem m k).mpr h)

theorem objFromEntriesAux_of_disjoint {α : Type} (es acc : List (String × α))
    (hdisj : ∀ p ∈ es, objHasKey acc p.1 = false) (hnodup : (es.map Prod.fst).Nodup) :
    objFromEntriesAux acc es = acc ++ es := by
  induction es generalizing acc with
  | nil => simp [objFromEntriesAux]
  | cons p rest ih =>
    obtain ⟨k, v⟩ := p
    have hk : objHasKey acc k = false := hdisj (k, v) (List.mem_cons_self _ _)
    have hins : objInsert acc k v = acc ++ [(k, v)] := by simp [objInsert, hk]
    simp only [objFromEntriesAux, hins]
    rw [ih (acc ++ [(k, v)])]
    · simp
    · intro q hq
      have hq1 : objHasKey acc q.1 = false := hdisj q (List.mem_cons_of_mem _ hq)
      have hq2 : ¬ q.1 = k := by
        simp only [List.map_cons, List.nodup_cons] at hnodup
        intro hcontra
        exact hnodup.1 (hcontra ▸ List.mem_map_of_mem Prod.fst hq)
      have hgacc : objGet acc q.1 = none := objGet_none_of_hasKey_false hq1
      have hkq : ¬ k = q.1 := fun hh => hq2 hh.symm
      rw [objHasKey, objGet_append, hgacc]
      simp [objGet, beq_iff_eq, hkq]
    · simp only [List.map_cons, List.nodup_cons] at hnodup
      exact hnodup.2

theorem objFromEntries_of_nodup {α : Type} (es : List (String × α))
    (hnodup : (es.map Prod.fst).Nodup) : objFromEntries es = es := by
  have := objFromEntriesAux_of_disjoint es [] (by intro p _; rfl) hnodup
  simpa [objFromEntries] using this

theorem objInsert_keys_nodup {α : Type} (m : List (String × α)) (k : String) (v : α)
    (h : (m.map Prod.fst).Nodup) : ((objInsert m k v).map Prod.fst).Nodup := by
  by_cases hk : objHasKey m k
  · rw [objInsert_map_fst_of_hasKey m k v hk]; exact h
  · have hk' : objHasKey m k = false := by simpa using hk
    rw [objInsert_map_fst_of_not_hasKey m k v hk']
    have hnm : ¬ k ∈ m.map Prod.fst := fun hm => hk ((objHasKey_iff_mem m k).mpr hm)
    simp [List.nodup_append, h, hnm]

theorem objFromEntriesAux_keys_nodup {α : Type} (es acc : List (String × α))
    (h : (acc.map Prod.fst).Nodup) : ((objFromEntriesAux acc es).map Prod.fst).Nodup := by
  induction es generalizing acc with
  | nil => simpa [objFromEntriesAux] using h
  | cons p rest ih =>
    obtain ⟨k, v⟩ := p
    exact ih (objInsert acc k v) (objInsert_keys_nodup acc k v h)

theorem objFromEntries_keys_nodup {α : Type} (es : List (String × α)) :
    ((objFromEntries es).map Prod.fst).Nodup :=
  objFromEntriesAux_keys_nodup es [] (by simp)

theorem listContains_iff (l : List String) (k : String) :
    l.contains k = true ↔ k ∈ l := by
  induction l with
  | nil => simp
  | cons b bs ih =>
    by_cases h : k = b
    · simp [h]
    · have h2 : ¬ b = k := fun hh => h hh.symm
      simp [List.contains_cons, beq_iff_eq, h, h2, ih]

/-! ## Small lemmas about JSON values -/

theorem isDictionary_iff (v : Json) :
    isDictionary v = true ↔ (∃ es, v = Json.dict es) ∨ (∃ xs, v = Json.arr xs) := by
  cases v <;> simp [isDictionary, jsTypeof, jsIsNull]

theorem jsTruthy_of_isDictionary {v : Json} (h : isDictionary v = true) :
    jsTruthy v = true := by
  cases v <;> simp_all [isDictionary, jsTypeof, jsIsNull, jsTruthy]

/-! ## Lemmas about the locale algebra -/

/-- Well-formedness of a parsed tag: each present subtag has its standard
shape. -/
def TagWF (t : LocaleTag) : Prop :=
  isLanguageChars t.language = true
    ∧ (∀ s, t.script = some s → isScriptChars s = true)
    ∧ (∀ r, t.region = some r → isRegionChars r = true)

theorem isLowerAlpha_ne_dash {c : Char} (h : isLowerAlpha c = true) : c ≠ '-' := by
  intro hc
  subst hc
  exact absurd h (by decide)

theorem isUpperAlpha_ne_dash {c : Char} (h : isUpperAlpha c = true) : c ≠ '-' := by
  intro hc
  subst hc
  exact absurd h (by decide)

theorem isDigitChar_ne_dash {c : Char} (h : isDigitChar c = true) : c ≠ '-' := by
  intro hc
  subst hc
  exact absurd h (by decide)

theorem isLanguageChars_no_dash {cs : List Char} (h : isLanguageChars cs = true) :
    ∀ c ∈ cs, c ≠ '-' := by
  unfold isLanguageChars at h
  simp only [Bool.and_eq_true, List.all_eq_true] at h
  intro c hc
  exact isLowerAlpha_ne_dash (h.2 c hc)

theorem isScriptChars_no_dash {cs : List Char} (h : isScriptChars cs = true) :
    ∀ c ∈ cs, c ≠ '-' := by
  rcases cs with _ | ⟨c0, _ | ⟨c1, _ | ⟨c2, _ | ⟨c3, rest⟩⟩⟩⟩ <;>
    simp only [isScriptChars] at h
  · exact absurd h (by simp)
  · exact absurd h (by simp)
  · exact absurd h (by simp)
  · exact absurd h (by simp)
  · cases rest with
    | cons c4 rest' => exact absurd h (by simp)
    | nil =>
      simp only [Bool.and_eq_true] at h
      intro c hc
      simp only [List.mem_cons, List.not_mem_nil, or_false] at hc
      rcases hc with rfl | rfl | rfl | rfl
      · exact isUpperAlpha_ne_dash h.1.1.1
      · exact isLowerAlpha_ne_dash h.1.1.2
      · exact isLowerAlpha_ne_dash h.1.2
      · exact isLowerAlpha_ne_dash h.2

theorem isRegionChars_no_dash {cs : List Char} (h : isRegionChars cs = true) :
    ∀ c ∈ cs, c ≠ '-' := by
  rcases cs with _ | ⟨c0, _ | ⟨c1, _ | ⟨c2, _ | ⟨c3, rest⟩⟩⟩⟩ <;>
    simp only [isRegionChars] at h
  · exact absurd h (by simp)
  · exact absurd h (by simp)
  · simp only [Bool.and_eq_true] at h
    intro c hc
    simp only [List.mem_cons, List.not_mem_nil, or_false] at hc
    rcases hc with rfl | rfl
    · exact isUpperAlpha_ne_dash h.1
    · exact isUpperAlpha_ne_dash h.2
  · simp only [Bool.and_eq_true] at h
    intro c hc
    simp only [List.mem_cons, List.not_mem_nil, or_false] at hc
    rcases hc with rfl | rfl | rfl
    · exact isDigitChar_ne_dash h.1.1
    · exact isDigitChar_ne_dash h.1.2
    · exact isDigitChar_ne_dash h.2
  · exact absurd h (by simp)

theorem isRegionChars_not_script {cs : List Char} (h : isRegionChars cs = true) :
    isScriptChars cs = false := by
  rcases cs with _ | ⟨c0, _ | ⟨c1, _ | ⟨c2, _ | ⟨c3, rest⟩⟩⟩⟩ <;>
    simp only [isRegionChars] at h <;> first
  | rfl
  | exact absurd h (by simp)

theorem parseSubtags_wf {parts : List (List Char)} {t : LocaleTag}
    (h : parseSubtags parts = some t) : TagWF t := by
  rcases parts with _ | ⟨l, _ | ⟨x, _ | ⟨y, rest⟩⟩⟩ <;> simp only [parseSubtags] at h
  · exact absurd h (by simp)
  · by_cases hl : isLanguageChars l
    · simp only [hl, if_true, Option.some.injEq] at h
      subst h
      exact ⟨hl, by intro s hs; simp at hs, by intro r hr; simp at hr⟩
    · simp [hl] at h
  · by_cases hl : isLanguageChars l
    · simp only [hl, if_true] at h
      by_cases hs : isScriptChars x
      · simp only [hs, if_true, Option.some.injEq] at h
        subst h
        refine ⟨hl, ?_, by intro r hr; simp at hr⟩
        intro s hsx
        simp only [Option.some.injEq] at hsx
        exact hsx ▸ hs
      · simp only [hs, Bool.false_eq_true, if_false] at h
        by_cases hr : isRegionChars x
        · simp only [hr, if_true, Option.some.injEq] at h
          subst h
          refine ⟨hl, by intro s hsx; simp at hsx, ?_⟩
          intro r hrx
          simp only [Option.some.injEq] at hrx
          exact hrx ▸ hr
        · simp [hr] at h
    · simp [hl] at h
  · cases rest with
    | cons z rest' => exact absurd h (by simp)
    | nil =>
      by_cases hall : isLanguageChars l && isScriptChars x && isRegionChars y
      · simp only [hall, if_true, Option.some.injEq] at h
        subst h
        simp only [Bool.and_eq_true] at hall
        refine ⟨hall.1.1, ?_, ?_⟩
        · intro s hsx
          simp only [Option.some.injEq] at hsx
          exact hsx ▸ hall.1.2
        · intro r hrx
          simp only [Option.some.injEq] at hrx
          exact hrx ▸ hall.2
      · simp [hall] at h

theorem likelySubtags_wf {l s0 r0 : List Char} (h : likelySubtags l = some (s0, r0)) :
    isScriptChars s0 = true ∧ isRegionChars r0 = true := by
  unfold likelySubtags at h
  split at h <;> first
  | (simp only [Option.some.injEq, Prod.mk.injEq] at h
     obtain ⟨h1, h2⟩ := h
     subst h1
     subst h2
     exact ⟨by decide, by decide⟩)
  | exact absurd h (by simp)

theorem fillTag_language (t : LocaleTag) : (fillTag t).language = t.language := by
  unfold fillTag
  cases likelySubtags t.language with
  | none => rfl
  | some p => rfl

theorem fillTag_wf {t : LocaleTag} (h : TagWF t) : TagWF (fillTag t) := by
  obtain ⟨lang, sc, rg⟩ := t
  obtain ⟨h1, h2, h3⟩ := h
  unfold fillTag
  cases hls : likelySubtags lang with
  | none => exact ⟨h1, h2, h3⟩
  | some p =>
    obtain ⟨s0, r0⟩ := p
    obtain ⟨hs0, hr0⟩ := likelySubtags_wf hls
    refine ⟨h1, ?_, ?_⟩
    · intro s hsx
      cases sc with
      | none => simp only [Option.some.injEq] at hsx; exact hsx ▸ hs0
      | some s' =>
        simp only [Option.some.injEq] at hsx
        exact hsx ▸ h2 s' rfl
    · intro r hrx
      cases rg with
      | none => simp only [Option.some.injEq] at hrx; exact hrx ▸ hr0
      | some r' =>
        simp only [Option.some.injEq] at hrx
        exact hrx ▸ h3 r' rfl

theorem fillTag_idem (t : LocaleTag) : fillTag (fillTag t) = fillTag t := by
  obtain ⟨lang, sc, rg⟩ := t
  cases hls : likelySubtags lang <;> cases sc <;> cases rg <;>
    simp [fillTag, hls]

theorem splitSep_no_sep {sep : Char} {p : List Char} (h : ∀ c ∈ p, c ≠ sep) :
    splitSep sep p = [p] := by
  induction p with
  | nil => rfl
  | cons c cs ih =>
    have hc : ¬ c = sep := h c (List.mem_cons_self _ _)
    have hcs : ∀ c ∈ cs, c ≠ sep := fun c hcc => h c (List.mem_cons_of_mem _ hcc)
    simp [splitSep, beq_iff_eq, hc, ih hcs]

theorem splitSep_append_sep {sep : Char} {p l : List Char} (h : ∀ c ∈ p, c ≠ sep) :
    splitSep sep (p ++ sep :: l) = p :: splitSep sep l := by
  induction p with
  | nil => simp [splitSep]
  | cons c cs ih =>
    have hc : ¬ c = sep := h c (List.mem_cons_self _ _)
    have hcs : ∀ c ∈ cs, c ≠ sep := fun c hcc => h c (List.mem_cons_of_mem _ hcc)
    have hrec := ih hcs
    simp only [List.cons_append, splitSep, beq_iff_eq, hc, if_false, List.append_eq, hrec]

theorem joinSep_roundtrip {sep : Char} (parts : List (List Char)) (hne : parts ≠ [])
    (h : ∀ p ∈ parts, ∀ c ∈ p, c ≠ sep) :
    splitSep sep (joinSep sep parts) = parts := by
  induction parts with
  | nil => exact absurd rfl hne
  | cons p ps ih =>
    cases ps with
    | nil => exact splitSep_no_sep (h p (List.mem_cons_self _ _))
    | cons q qs =>
      have hstep : joinSep sep (p :: q :: qs) = p ++ sep :: joinSep sep (q :: qs) := rfl
      rw [hstep, splitSep_append_sep (h p (List.mem_cons_self _ _))]
      rw [ih (by simp) (fun r hr c hc => h r (List.mem_cons_of_mem _ hr) c hc)]

theorem tagParts_no_dash {t : LocaleTag} (h : TagWF t) :
    ∀ p ∈ tagParts t, ∀ c ∈ p, c ≠ '-' := by
  obtain ⟨lang, sc, rg⟩ := t
  obtain ⟨h1, h2, h3⟩ := h
  intro p hp
  cases sc <;> cases rg <;> simp only [tagParts, List.mem_cons, List.not_mem_nil, or_false] at hp
  · exact hp ▸ isLanguageChars_no_dash h1
  · rcases hp with rfl | rfl
    · exact isLanguageChars_no_dash h1
    · exact isRegionChars_no_dash (h3 _ rfl)
  · rcases hp with rfl | rfl
    · exact isLanguageChars_no_dash h1
    · exact isScriptChars_no_dash (h2 _ rfl)
  · rcases hp with rfl | rfl | rfl
    · exact isLanguageChars_no_dash h1
    · exact isScriptChars_no_dash (h2 _ rfl)
    · exact isRegionChars_no_dash (h3 _ rfl)

theorem parseSubtags_tagParts {t : LocaleTag} (h : TagWF t) :
    parseSubtags (tagParts t) = some t := by
  obtain ⟨lang, sc, rg⟩ := t
  obtain ⟨h1, h2, h3⟩ := h
  cases sc <;> cases rg <;> simp only [tagParts]
  · simp [parseSubtags, h1]
  · have hr := h3 _ rfl
    simp [parseSubtags, h1, hr, isRegionChars_not_script hr]
  · simp [parseSubtags, h1, h2 _ rfl]
  · simp [parseSubtags, h1, h2 _ rfl, h3 _ rfl]

theorem parseLocale_renderTag {t : LocaleTag} (h : TagWF t) :
    parseLocale (renderTag t) = some t := by
  unfold parseLocale renderTag
  have hdata : (String.mk (joinSep '-' (tagParts t))).data = joinSep '-' (tagParts t) := rfl
  rw [hdata]
  have hne : tagParts t ≠ [] := by
    obtain ⟨lang, sc, rg⟩ := t
    cases sc <;> cases rg <;> simp [tagParts]
  rw [joinSep_roundtrip (tagParts t) hne (tagParts_no_dash h)]
  exact parseSubtags_tagParts h

theorem maximize_idem {s m : String} (h : maximizeLocale s = some m) :
    maximizeLocale m = some m := by
  unfold maximizeLocale at h
  cases hp : parseLocale s with
  | none => rw [hp] at h; simp at h
  | some t =>
    rw [hp] at h
    have h' : renderTag (fillTag t) = m := by simpa using h
    subst h'
    have hwf : TagWF (fillTag t) :=
      fillTag_wf (parseSubtags_wf (show parseSubtags (splitSep '-' s.data) = some t from hp))
    unfold maximizeLocale
    rw [parseLocale_renderTag hwf]
    simp [fillTag_idem]

theorem isMaximized_of_maximize {s m : String} (h : maximizeLocale s = some m) :
    isMaximizedLocale m = some true := by
  unfold isMaximizedLocale
  rw [maximize_idem h]
  simp

/-! ## Lemmas about locale normalization -/

theorem isValid_of_maximize {r m : String} (h : maximizeLocale r = some m) :
    isValidRfc5646Locale r = true := by
  unfold maximizeLocale at h
  unfold isValidRfc5646Locale
  cases hp : parseLocale r with
  | none => rw [hp] at h; simp at h
  | some t => simp [hp]

theorem normalizeLocale_not_supported (e : I18n) (r m : String)
    (hmax : maximizeLocale r = some m) (hcon : (supportedLocales e).contains m = false) :
    normalizeLocale e r = Except.error (I18nError.noDeclaredLocaleMatches m r) := by
  have hnm : ¬ m ∈ supportedLocales e := by
    intro hmem
    have hx := (listContains_iff (supportedLocales e) m).mpr hmem
    rw [hx] at hcon
    simp at hcon
  simp [normalizeLocale, isValid_of_maximize hmax, hmax, hcon, hnm]

theorem normalizeLocale_ok_inv {e : I18n} {r out : String}
    (h : normalizeLocale e r = Except.ok out) :
    maximizeLocale r = some out ∧ (supportedLocales e).contains out = true := by
  unfold normalizeLocale at h
  cases hv : isValidRfc5646Locale r with
  | false => simp [hv] at h
  | true =>
    simp only [hv, Bool.not_true, Bool.false_eq_true, if_false] at h
    cases hm : maximizeLocale r with
    | none => simp [hm] at h
    | some m =>
      simp only [hm] at h
      cases hc : (supportedLocales e).contains m with
      | false =>
        have hnm : ¬ m ∈ supportedLocales e := by
          intro hmem
          have hx := (listContains_iff (supportedLocales e) m).mpr hmem
          rw [hx] at hc
          simp at hc
        simp [hnm] at h
      | true =>
        have hmem : m ∈ supportedLocales e := (listContains_iff _ _).mp hc
        simp [hmem] at h
        subst h
        exact ⟨rfl, hc⟩

/-! ## Lemmas about dictionary lookup -/

theorem lookupValueSegs_none_of_ne_nil (rest : List String) (h : rest ≠ []) :
    lookupValueSegs none rest
      = Except.error "TypeError: cannot read properties of undefined" := by
  cases rest with
  | nil => exact absurd rfl h
  | cons r rs =>
    cases rs with
    | nil => rfl
    | cons r2 rs' => rfl

/-! ## Lemmas about construction and batch validation -/

theorem validateSupportedLocales_invalid (ls : List String)
    (h : ls.filter (fun l => !isValidRfc5646Locale l) ≠ []) :
    validateSupportedLocales ls
      = Except.error (I18nError.invalidSupportedLocales
          (ls.filter (fun l => !isValidRfc5646Locale l))) := by
  have hls : ls.isEmpty = false := by
    cases ls with
    | nil => simp at h
    | cons a as => rfl
  have hfe : (ls.filter (fun l => !isValidRfc5646Locale l)).isEmpty = false := by
    cases hx : ls.filter (fun l => !isValidRfc5646Locale l) with
    | nil => exact absurd hx h
    | cons a as => rfl
  simp [validateSupportedLocales, hls, hfe]

theorem mkI18n_invalid_locales (ls nss : List String) (tmpl : String)
    (h : ls.filter (fun l => !isValidRfc5646Locale l) ≠ []) :
    mkI18n ls nss tmpl
      = Except.error (I18nError.invalidSupportedLocales
          (ls.filter (fun l => !isValidRfc5646Locale l))) := by
  have hv := validateSupportedLocales_invalid ls h
  simp [mkI18n, hv, Bind.bind, Except.bind]

theorem validateNamespaces_undeclared (e : I18n) (nss : List String)
    (h : (dedupFirst nss).filter (fun ns => !e.nsDeclared.contains ns) ≠ []) :
    validateNamespaces e nss
      = Except.error (I18nError.undeclaredNamespaces
          ((dedupFirst nss).filter (fun ns => !e.nsDeclared.contains ns))) := by
  have hfe : ((dedupFirst nss).filter (fun ns => !e.nsDeclared.contains ns)).isEmpty = false := by
    cases hx : (dedupFirst nss).filter (fun ns => !e.nsDeclared.contains ns) with
    | nil => exact absurd hx h
    | cons a as => rfl
  simp only [validateNamespaces]
  rw [hfe]
  simp

theorem buildSupportedEntries_spec (ls : List String) (entries : List (String × String))
    (h : buildSupportedEntries ls = Except.ok entries) :
    ls.map maximizeLocale = (entries.map Prod.fst).map some ∧ entries.map Prod.snd = ls := by
  induction ls generalizing entries with
  | nil =>
    simp [buildSupportedEntries] at h
    subst h
    simp
  | cons l rest ih =>
    unfold buildSupportedEntries at h
    cases hm : maximizeLocale l with
    | none => simp [hm] at h
    | some m =>
      simp only [hm] at h
      cases hr : buildSupportedEntries rest with
      | error err => simp [hr, Except.map] at h
      | ok es =>
        simp only [hr, Except.map, Except.ok.injEq] at h
        subst h
        obtain ⟨ih1, ih2⟩ := ih es hr
        constructor
        · simp [hm, ih1]
        · simp [ih2]

theorem mkI18n_ok_inv {ls nss : List String} {tmpl : String} {e : I18n}
    (h : mkI18n ls nss tmpl = Except.ok e) :
    ∃ entries, buildSupportedEntries ls = Except.ok entries
      ∧ e.supported = objFromEntries entries
      ∧ e.nsDeclared = dedupFirst nss
      ∧ e.loadedMessages = objFromEntries (((objFromEntries entries).map Prod.fst).map
          (fun l => (l, ([] : List (String × Json)))))
      ∧ e.messagesUrlTemplate = tmpl := by
  unfold mkI18n at h
  cases hv : validateSupportedLocales ls with
  | error err => simp [hv, Bind.bind, Except.bind] at h
  | ok u =>
    simp only [hv, Bind.bind, Except.bind] at h
    cases hb : buildSupportedEntries ls with
    | error err => simp [hb] at h
    | ok entries =>
      simp only [hb] at h
      cases ht : validateMessagesUrlTemplate tmpl with
      | error err => simp [ht] at h
      | ok u2 =>
        simp only [ht, Except.ok.injEq] at h
        subst h
        exact ⟨entries, rfl, rfl, rfl, rfl, rfl⟩

/-! ## Lemmas about the fetch-and-cache path -/

theorem fetchFromSource_ok_inv {oracle : Oracle} {e : I18n} {l d ns : String} {msgs : Json}
    {e' : I18n} {b : Bool}
    (h : fetchFromSource oracle e l d ns = some (Except.ok msgs, e', b)) :
    oracle (buildSourceUrl e d ns) = Except.ok msgs ∧ isDictionary msgs = true ∧ b = true ∧
    ∃ cached, objGet e.loadedMessages l = some cached ∧
      e' = { e with loadedMessages := objInsert e.loadedMessages l (objInsert cached ns msgs) } := by
  unfold fetchFromSource at h
  cases ho : oracle (buildSourceUrl e d ns) with
  | error err => simp [ho] at h
  | ok payload =>
    simp only [ho] at h
    cases hd : isDictionary payload with
    | false => simp [hd] at h
    | true =>
      simp only [hd, if_true] at h
      cases hc : objGet e.loadedMessages l with
      | none => simp [hc] at h
      | some cached =>
        simp only [hc, Option.some.injEq, Prod.mk.injEq, Except.ok.injEq] at h
        obtain ⟨h1, h2, h3⟩ := h
        subst h1
        exact ⟨rfl, hd, h3.symm, cached, rfl, h2.symm⟩

theorem fetchFromSource_error_inv {oracle : Oracle} {e : I18n} {l d ns : String}
    {err : I18nError} {e' : I18n} {b : Bool}
    (h : fetchFromSource oracle e l d ns = some (Except.error err, e', b)) : e' = e := by
  unfold fetchFromSource at h
  cases ho : oracle (buildSourceUrl e d ns) with
  | error err2 =>
    simp only [ho, Option.some.injEq, Prod.mk.injEq] at h
    exact h.2.1.symm
  | ok payload =>
    simp only [ho] at h
    cases hd : isDictionary payload with
    | false =>
      simp only [hd, Bool.false_eq_true, if_false, Option.some.injEq, Prod.mk.injEq] at h
      exact h.2.1.symm
    | true =>
      simp only [hd, if_true] at h
      cases hc : objGet e.loadedMessages l with
      | none => simp [hc] at h
      | some cached => simp [hc] at h

theorem fetchMessages_ok_fetched_inv {oracle : Oracle} {e : I18n} {l d ns : String}
    {msgs : Json} {e' : I18n}
    (h : fetchMessages oracle e l d ns = some (Except.ok msgs, e', true)) :
    isDictionary msgs = true ∧
    ∃ cached, objGet e.loadedMessages l = some cached ∧
      e' = { e with loadedMessages := objInsert e.loadedMessages l (objInsert cached ns msgs) } := by
  unfold fetchMessages at h
  cases hc : objGet e.loadedMessages l with
  | none =>
    simp only [hc] at h
    obtain ⟨-, -, -, cached, hcc, -⟩ := fetchFromSource_ok_inv h
    rw [hc] at hcc
    exact absurd hcc (by simp)
  | some cachedMessages =>
    simp only [hc] at h
    cases hn : objGet cachedMessages ns with
    | none =>
      simp only [hn] at h
      obtain ⟨-, h2, -, cached, hcc, he⟩ := fetchFromSource_ok_inv h
      rw [hc] at hcc
      exact ⟨h2, cached, hcc, he⟩
    | some v =>
      simp only [hn] at h
      cases ht : jsTruthy v with
      | false =>
        simp only [ht, Bool.false_eq_true, if_false] at h
        obtain ⟨-, h2, -, cached, hcc, he⟩ := fetchFromSource_ok_inv h
        rw [hc] at hcc
        exact ⟨h2, cached, hcc, he⟩
      | true => simp [ht] at h

theorem fetchMessages_error_inv {oracle : Oracle} {e : I18n} {l d ns : String}
    {err : I18nError} {e' : I18n} {b : Bool}
    (h : fetchMessages oracle e l d ns = some (Except.error err, e', b)) : e' = e := by
  unfold fetchMessages at h
  cases hc : objGet e.loadedMessages l with
  | none =>
    simp only [hc] at h
    exact fetchFromSource_error_inv h
  | some cachedMessages =>
    simp only [hc] at h
    cases hn : objGet cachedMessages ns with
    | none =>
      simp only [hn] at h
      exact fetchFromSource_error_inv h
    | some v =>
      simp only [hn] at h
      cases ht : jsTruthy v with
      | false =>
        simp only [ht, Bool.false_eq_true, if_false] at h
        exact fetchFromSource_error_inv h
      | true => simp [ht] at h

/-! ## Lemmas about the placeholder scanner -/

theorem string_data_append (a b : String) : (a ++ b).data = a.data ++ b.data := rfl

theorem mem_of_mem_takeWhile {p : Char → Bool} {l : List Char} {c : Char}
    (h : c ∈ l.takeWhile p) : c ∈ l := by
  induction l with
  | nil => simp [List.takeWhile] at h
  | cons a as ih =>
    rw [List.takeWhile_cons] at h
    by_cases hp : p a
    · simp only [hp, if_true, List.mem_cons] at h
      rcases h with rfl | h
      · exact List.mem_cons_self _ _
      · exact List.mem_cons_of_mem _ (ih h)
    · simp [hp] at h

theorem takeWhile_append_of_all {p : Char → Bool} {a b : List Char}
    (h : ∀ c ∈ a, p c = true) : (a ++ b).takeWhile p = a ++ b.takeWhile p := by
  induction a with
  | nil => rfl
  | cons c cs ih =>
    have hc : p c = true := h c (List.mem_cons_self _ _)
    have hcs : ∀ x ∈ cs, p x = true := fun x hx => h x (List.mem_cons_of_mem _ hx)
    simp [List.takeWhile_cons, hc, ih hcs]

theorem lastBracePos_none_of_no_brace (cs : List Char) (h : ∀ c ∈ cs, c ≠ '}') :
    lastBracePos cs = none := by
  induction cs with
  | nil => rfl
  | cons c rest ih =>
    cases rest with
    | nil => rfl
    | cons c1 rest' =>
      have hin : lastBracePos (c1 :: rest') = none :=
        ih (fun x hx => h x (List.mem_cons_of_mem _ hx))
      have hc : ¬ c = '}' := h c (List.mem_cons_self _ _)
      simp [lastBracePos, hin, beq_iff_eq, hc]

theorem lastBracePos_closing_brace (ys : List Char) (hy : ∀ c ∈ ys, c ≠ '}') :
    lastBracePos ('}' :: ys) = none := by
  cases ys with
  | nil => rfl
  | cons y ys' =>
    have h1 : lastBracePos (y :: ys') = none := lastBracePos_none_of_no_brace _ hy
    have hyy : ¬ y = '}' := hy y (List.mem_cons_self _ _)
    simp [lastBracePos, h1, beq_iff_eq, hyy]

theorem lastBracePos_append (xs ys : List Char) (hx : ∀ c ∈ xs, c ≠ '}')
    (hy : ∀ c ∈ ys, c ≠ '}') :
    lastBracePos (xs ++ '}' :: '}' :: ys) = some xs.length := by
  induction xs with
  | nil =>
    have h2a := lastBracePos_closing_brace ys hy
    simp [lastBracePos, h2a]
  | cons x xs' ih =>
    have hx' : ∀ c ∈ xs', c ≠ '}' := fun c hc => hx c (List.mem_cons_of_mem _ hc)
    cases hsplit : xs' ++ '}' :: '}' :: ys with
    | nil => cases xs' <;> simp at hsplit
    | cons c1 rest =>
      have hin : lastBracePos (c1 :: rest) = some xs'.length := by
        rw [← hsplit]
        exact ih hx'
      have hgoal : (x :: xs') ++ '}' :: '}' :: ys = x :: c1 :: rest := by
        rw [List.cons_append, hsplit]
      rw [hgoal]
      simp [lastBracePos, hin]

/-- The greedy capture for a properly delimited placeholder whose name has
no closing brace or line terminator, when nothing after it on the same
line contains a closing brace. -/
theorem findGreedy_at_placeholder (name post : List Char) (hne : name ≠ [])
    (hname : ∀ c ∈ name, c ≠ '}' ∧ c ≠ '\n' ∧ c ≠ '\r')
    (hpost : ∀ c ∈ post, c ≠ '}') :
    findGreedy (name ++ '}' :: '}' :: post) = some (name, name.length) := by
  have hnl : ∀ c ∈ name ++ ['}', '}'], (c != '\n' && c != '\r') = true := by
    intro c hc
    rw [List.mem_append] at hc
    rcases hc with hc | hc
    · obtain ⟨-, h2, h3⟩ := hname c hc
      simp [h2, h3]
    · simp only [List.mem_cons, List.not_mem_nil, or_false] at hc
      rcases hc with rfl | rfl <;> decide
  have hassoc : name ++ '}' :: '}' :: post = (name ++ ['}', '}']) ++ post := by simp
  have hline : (name ++ '}' :: '}' :: post).takeWhile (fun c => c != '\n' && c != '\r')
      = name ++ '}' :: '}' :: post.takeWhile (fun c => c != '\n' && c != '\r') := by
    rw [hassoc, takeWhile_append_of_all hnl]
    simp
  have hpost' : ∀ c ∈ post.takeWhile (fun c => c != '\n' && c != '\r'), c ≠ '}' :=
    fun c hc => hpost c (mem_of_mem_takeWhile hc)
  have hlbp := lastBracePos_append name
    (post.takeWhile (fun c => c != '\n' && c != '\r'))
    (fun c hc => (hname c hc).1) hpost'
  have hlen : 1 ≤ name.length := by
    cases name with
    | nil => exact absurd rfl hne
    | cons a as => simp
  have htake : (name ++ '}' :: '}' :: post.takeWhile (fun c => c != '\n' && c != '\r')).take
      name.length = name := List.take_left _ _
  unfold findGreedy
  rw [hline]
  simp only [hlbp, hlen, if_true, htake]

/-- A scan that reaches a properly delimited placeholder whose
substitution is absent or empty aborts with the missing-substitution
error naming that placeholder, whatever follows on the line after it. -/
theorem substAux_missing (subs : List (String × String)) (pre name post : List Char)
    (hpre : ∀ c ∈ pre, c ≠ '{')
    (hne : name ≠ [])
    (hname : ∀ c ∈ name, c ≠ '}' ∧ c ≠ '\n' ∧ c ≠ '\r')
    (hpost : ∀ c ∈ post, c ≠ '}')
    (hsub : objGet subs (String.mk name) = some "" ∨ objGet subs (String.mk name) = none) :
    substAux subs (pre ++ '{' :: '{' :: (name ++ '}' :: '}' :: post))
      = Except.error (I18nError.missingSubstitution (String.mk name)) := by
  induction pre with
  | nil =>
    rw [List.nil_append, substAux]
    have hg := findGreedy_at_placeholder name post hne hname hpost
    rcases hsub with hs | hs <;> simp [hg, hs]
  | cons c cs ih =>
    have hc : ¬ c = '{' := hpre c (List.mem_cons_self _ _)
    cases hsplit : cs ++ '{' :: '{' :: (name ++ '}' :: '}' :: post) with
    | nil => cases cs <;> simp at hsplit
    | cons r0 rr =>
      have hstep : (c :: cs) ++ '{' :: '{' :: (name ++ '}' :: '}' :: post) = c :: r0 :: rr := by
        rw [List.cons_append, hsplit]
      rw [hstep, substAux]
      have hcond : (c == '{' && r0 == '{') = false := by simp [beq_iff_eq, hc]
      simp only [hcond, Bool.false_eq_true, if_false]
      rw [← hsplit, ih (fun x hx => hpre x (List.mem_cons_of_mem _ hx))]
      rfl

/-! ## Lemmas about the cache-entry invariant -/

theorem mkI18n_cache_keys {ls nss : List String} {tmpl : String} {e : I18n}
    (h : mkI18n ls nss tmpl = Except.ok e) :
    e.loadedMessages.map Prod.fst = supportedLocales e := by
  obtain ⟨entries, hb, hsup, -, hload, -⟩ := mkI18n_ok_inv h
  have hkeys : (((objFromEntries entries).map Prod.fst).map
      (fun l => (l, ([] : List (String × Json))))).map Prod.fst
      = (objFromEntries entries).map Prod.fst := by
    simp [List.map_map, Function.comp]
  have hnodup : ((((objFromEntries entries).map Prod.fst).map
      (fun l => (l, ([] : List (String × Json))))).map Prod.fst).Nodup := by
    rw [hkeys]
    exact objFromEntries_keys_nodup entries
  rw [hload, objFromEntries_of_nodup _ hnodup, hkeys]
  unfold supportedLocales
  rw [hsup]

theorem fetchFromSource_preserves {oracle : Oracle} {e : I18n} {l d ns : String}
    {r : Except I18nError Json} {e' : I18n} {b : Bool}
    (h : fetchFromSource oracle e l d ns = some (r, e', b)) :
    e'.supported = e.supported
      ∧ e'.loadedMessages.map Prod.fst = e.loadedMessages.map Prod.fst := by
  unfold fetchFromSource at h
  cases ho : oracle (buildSourceUrl e d ns) with
  | error err =>
    simp only [ho, Option.some.injEq, Prod.mk.injEq] at h
    rw [← h.2.1]
    exact ⟨rfl, rfl⟩
  | ok payload =>
    simp only [ho] at h
    cases hd : isDictionary payload with
    | false =>
      simp only [hd, Bool.false_eq_true, if_false, Option.some.injEq, Prod.mk.injEq] at h
      rw [← h.2.1]
      exact ⟨rfl, rfl⟩
    | true =>
      simp only [hd, if_true] at h
      cases hc : objGet e.loadedMessages l with
      | none => simp [hc] at h
      | some cached =>
        simp only [hc, Option.some.injEq, Prod.mk.injEq] at h
        rw [← h.2.1]
        refine ⟨rfl, ?_⟩
        have hm : l ∈ e.loadedMessages.map Prod.fst := by
          apply (objHasKey_iff_mem e.loadedMessages l).mp
          simp [objHasKey, hc]
        exact objInsert_map_fst_of_mem e.loadedMessages l _ hm

theorem fetchMessages_preserves {oracle : Oracle} {e : I18n} {l d ns : String}
    {r : Except I18nError Json} {e' : I18n} {b : Bool}
    (h : fetchMessages oracle e l d ns = some (r, e', b)) :
    e'.supported = e.supported
      ∧ e'.loadedMessages.map Prod.fst = e.loadedMessages.map Prod.fst := by
  unfold fetchMessages at h
  cases hc : objGet e.loadedMessages l with
  | none =>
    simp only [hc] at h
    exact fetchFromSource_preserves h
  | some cached =>
    simp only [hc] at h
    cases hn : objGet cached ns with
    | none =>
      simp only [hn] at h
      exact fetchFromSource_preserves h
    | some v =>
      simp only [hn] at h
      cases ht : jsTruthy v with
      | false =>
        simp only [ht, Bool.false_eq_true, if_false] at h
        exact fetchFromSource_preserves h
      | true =>
        simp only [ht, if_true, Option.some.injEq, Prod.mk.injEq] at h
        rw [← h.2.1]
        exact ⟨rfl, rfl⟩

theorem fetchMessages_ne_none_of_mem {oracle : Oracle} {e : I18n} {l d ns : String}
    (hm : l ∈ e.loadedMessages.map Prod.fst) :
    fetchMessages oracle e l d ns ≠ none := by
  have hsome := objGet_isSome_of_mem e.loadedMessages l hm
  unfold fetchMessages
  cases hc : objGet e.loadedMessages l with
  | none => rw [hc] at hsome; simp at hsome
  | some cached =>
    have hffs : fetchFromSource oracle e l d ns ≠ none := by
      unfold fetchFromSource
      cases ho : oracle (buildSourceUrl e d ns) with
      | error err => simp [ho]
      | ok payload =>
        cases hd : isDictionary payload with
        | false => simp [ho, hd]
        | true => simp [ho, hd, hc]
    cases hn : objGet cached ns with
    | none =>
      simp only [hn]
      exact hffs
    | some v =>
      cases ht : jsTruthy v with
      | false =>
        simp only [hn, ht, Bool.false_eq_true, if_false]
        exact hffs
      | true => simp [hn, ht]

theorem fetchAll_ne_none (nss : List String) (oracle : Oracle) (e : I18n) (l d : String)
    (hinv : e.loadedMessages.map Prod.fst = supportedLocales e)
    (hl : l ∈ supportedLocales e) :
    fetchAll oracle e l d nss ≠ none := by
  induction nss generalizing e with
  | nil => simp [fetchAll]
  | cons ns rest ih =>
    have hm : l ∈ e.loadedMessages.map Prod.fst := by rw [hinv]; exact hl
    unfold fetchAll
    cases hf : fetchMessages oracle e l d ns with
    | none => exact absurd hf (fetchMessages_ne_none_of_mem hm)
    | some res =>
      obtain ⟨r, e', b⟩ := res
      obtain ⟨hsup, hkeys⟩ := fetchMessages_preserves hf
      have hsl : supportedLocales e' = supportedLocales e := by
        unfold supportedLocales
        rw [hsup]
      have hinv' : e'.loadedMessages.map Prod.fst = supportedLocales e' := by
        rw [hkeys, hinv, hsl]
      have hl' : l ∈ supportedLocales e' := by rw [hsl]; exact hl
      cases r with
      | error err => simp [hf]
      | ok msgs =>
        simp only [hf]
        cases hrec : fetchAll oracle e' l d rest with
        | none => exact absurd hrec (ih e' hinv' hl')
        | some p =>
          obtain ⟨r2, e''⟩ := p
          cases r2 <;> simp [hrec]

theorem loadMessagesInternal_ne_none (oracle : Oracle) (e : I18n) (l : String)
    (nss : List String)
    (hinv : e.loadedMessages.map Prod.fst = supportedLocales e)
    (hl : l ∈ supportedLocales e) (hidem : maximizeLocale l = some l) :
    loadMessagesInternal oracle e l nss ≠ none := by
  unfold loadMessagesInternal
  rw [hidem]
  cases hg : objGet e.supported l with
  | none =>
    have hs := objGet_isSome_of_mem e.supported l hl
    rw [hg] at hs
    simp at hs
  | some declaredAs =>
    simp only [hg]
    by_cases hda : declaredAs = ""
    · subst hda
      simp
    · have hdaf : (declaredAs == "") = false := beq_eq_false_iff_ne.mpr hda
      simp only [hdaf, Bool.false_eq_true, if_false]
      cases hfa : fetchAll oracle e l declaredAs (nss ++ ["common"]) with
      | none => exact absurd hfa (fetchAll_ne_none _ oracle e l declaredAs hinv hl)
      | some p =>
        obtain ⟨r, e'⟩ := p
        cases r <;> simp [hfa]

theorem loadMessages_not_crash (oracle : Oracle) (e : I18n) (loc : Option String)
    (nss : List String)
    (hinv : e.loadedMessages.map Prod.fst = supportedLocales e) :
    loadMessages oracle e loc nss ≠ none := by
  unfold loadMessages
  cases hv : validateNamespaces e nss with
  | error err => simp
  | ok u =>
    cases loc with
    | none => simp
    | some requested =>
      cases hn : normalizeLocale e requested with
      | error err => simp [hn]
      | ok l =>
        obtain ⟨hmax, hcon⟩ := normalizeLocale_ok_inv hn
        have hidem : maximizeLocale l = some l := maximize_idem hmax
        have hl : l ∈ supportedLocales e := (listContains_iff _ _).mp hcon
        simp only [hn]
        cases hi : loadMessagesInternal oracle e l nss with
        | none => exact absurd hi (loadMessagesInternal_ne_none oracle e l nss hinv hl hidem)
        | some p =>
          obtain ⟨r, e'⟩ := p
          cases r <;> simp [hi]

/-! ## Claim theorems -/

/-- Claim C1: the spec requires `t` to replace every `\x7b\x7bname\x7d\x7d`
token independently with its own substitution, failing only when a
referenced placeholder has no substitution.  The code behaves as claimed
for a single placeholder (first three conjuncts reproduce the spec's
scenario), but the greedy regex `(.+)` merges several placeholders on one
line into a single match, so the failing input in the last conjunct
aborts with a fabricated placeholder name instead of substituting both
tokens — the code contradicts the claimed (and clearly intended)
independent substitution. -/
theorem c1_placeholder_substitution :
    substitutePlaceholders "Hello, \x7b\x7bname\x7d\x7d!" [("name", "Alice")]
      = Except.ok "Hello, Alice!"
    ∧ substitutePlaceholders "Hello, \x7b\x7bname\x7d\x7d!" []
      = Except.error (I18nError.missingSubstitution "name")
    ∧ tApply [("common", Json.dict [("hello", Json.str "Hello, \x7b\x7bname\x7d\x7d!")])] []
        "hello" [("name", "Alice")] = Except.ok "Hello, Alice!"
    ∧ substitutePlaceholders "\x7b\x7ba\x7d\x7d and \x7b\x7bb\x7d\x7d" [("a", "1"), ("b", "2")]
      = Except.error (I18nError.missingSubstitution "a\x7d\x7d and \x7b\x7bb") := by
  refine ⟨?_, ?_, ?_, ?_⟩
  · simp [substitutePlaceholders, substAux, findGreedy, lastBracePos, objGet, Except.map]
  · simp [substitutePlaceholders, substAux, findGreedy, lastBracePos, objGet, Except.map]
  · have h : tApply [("common", Json.dict [("hello", Json.str "Hello, \x7b\x7bname\x7d\x7d!")])]
        [] "hello" [("name", "Alice")]
        = substitutePlaceholders "Hello, \x7b\x7bname\x7d\x7d!" [("name", "Alice")] := rfl
    rw [h]
    simp [substitutePlaceholders, substAux, findGreedy, lastBracePos, objGet, Except.map]
  · simp [substitutePlaceholders, substAux, findGreedy, lastBracePos, objGet, Except.map]

/-- Claim C2: an explicitly or auto-detected requested locale whose
maximized form is not a supported key makes `loadMessages` fail with an
error naming both the maximized form and the original request, and the
engine never resolves to a different supported locale.  First conjunct:
the general failure shape of `#normalizeLocale`; second: a successful
normalization returns exactly the maximization of the request (no
fallback); third and fourth: the spec's `"en-Arab"` scenario against
supported `["en", "fr", "fr-Arab"]`, at `#normalizeLocale` and at the
public `loadMessages`. -/
theorem c2_no_locale_fallback :
    (∀ (e : I18n) (r m : String), maximizeLocale r = some m →
        (supportedLocales e).contains m = false →
        normalizeLocale e r = Except.error (I18nError.noDeclaredLocaleMatches m r))
    ∧ (∀ (e : I18n) (r out : String), normalizeLocale e r = Except.ok out →
        maximizeLocale r = some out ∧ (supportedLocales e).contains out = true)
    ∧ normalizeLocale fixtureI18n "en-Arab"
        = Except.error (I18nError.noDeclaredLocaleMatches "en-Arab-US" "en-Arab")
    ∧ (∀ oracle : Oracle, loadMessages oracle fixtureI18n (some "en-Arab") []
        = some (Except.error (I18nError.noDeclaredLocaleMatches "en-Arab-US" "en-Arab"),
            fixtureI18n)) :=
  ⟨fun e r m hmax hcon => normalizeLocale_not_supported e r m hmax hcon,
   fun _ _ _ h => normalizeLocale_ok_inv h,
   rfl,
   fun _ => rfl⟩

/-- Witness for C2: the hypotheses of the first conjunct hold at the
spec's scenario input and yield the claimed error. -/
theorem c2_no_locale_fallback_witness :
    maximizeLocale "en-Arab" = some "en-Arab-US"
    ∧ (supportedLocales fixtureI18n).contains "en-Arab-US" = false
    ∧ normalizeLocale fixtureI18n "en-Arab"
        = Except.error (I18nError.noDeclaredLocaleMatches "en-Arab-US" "en-Arab") :=
  ⟨rfl, rfl, c2_no_locale_fallback.1 fixtureI18n "en-Arab" "en-Arab-US" rfl rfl⟩

/-- Claim C3 counterexample: the claim says `isDictionary` is true only
for proper non-array mappings and that an array payload makes the load
fail, but `typeof [] === "object"` holds, so `isDictionary` accepts an
array and `#fetchMessages` stores and returns an array payload
successfully. -/
theorem c3_counterexample :
    isDictionary (Json.arr [Json.str "x"]) = true
    ∧ (fetchMessages ((fun _ => Except.ok (Json.arr [Json.str "x"])) : Oracle) fixtureI18n
        "en-Latn-US" "en" "common").map (fun r => (r.1, r.2.2))
      = some (Except.ok (Json.arr [Json.str "x"]), true) :=
  ⟨rfl, rfl⟩

/-- Claim C3 as amended: `isDictionary v` is true iff `v` is a non-null
JavaScript object, which includes arrays as well as proper mappings; a
cache-missed load fails with the `malformed messages` error (naming the
offending payload and source URL) exactly when the decoded payload is
`null` or a primitive, while arrays are accepted. -/
theorem c3_dictionary_check :
    (∀ v : Json, isDictionary v = true ↔ (∃ es, v = Json.dict es) ∨ (∃ xs, v = Json.arr xs))
    ∧ (∀ (oracle : Oracle) (e : I18n) (l d ns : String) (payload : Json)
        (cached : List (String × Json)),
        objGet e.loadedMessages l = some cached →
        objGet cached ns = none →
        oracle (buildSourceUrl e d ns) = Except.ok payload →
        isDictionary payload = false →
        fetchMessages oracle e l d ns
          = some (Except.error (I18nError.malformedMessages (buildSourceUrl e d ns) payload),
              e, true)) := by
  constructor
  · exact isDictionary_iff
  · intro oracle e l d ns payload cached hcache hns horacle hdict
    simp [fetchMessages, fetchFromSource, hcache, hns, horacle, hdict]

/-- Witness for C3's amended theorem: a `null` payload for an uncached
pair produces the malformed-messages error. -/
theorem c3_dictionary_check_witness :
    objGet fixtureI18n.loadedMessages "en-Latn-US" = some []
    ∧ objGet ([] : List (String × Json)) "common" = none
    ∧ ((fun _ => Except.ok Json.null) : Oracle) (buildSourceUrl fixtureI18n "en" "common")
        = Except.ok Json.null
    ∧ isDictionary Json.null = false
    ∧ fetchMessages ((fun _ => Except.ok Json.null) : Oracle) fixtureI18n "en-Latn-US" "en"
        "common"
      = some (Except.error (I18nError.malformedMessages
          (buildSourceUrl fixtureI18n "en" "common") Json.null), fixtureI18n, true) :=
  ⟨rfl, rfl, rfl, rfl,
   c3_dictionary_check.2 ((fun _ => Except.ok Json.null) : Oracle) fixtureI18n "en-Latn-US"
     "en" "common" Json.null [] rfl rfl rfl rfl⟩

/-- Claim C7 counterexample: the claim says `lookupValue` signals a
missing path segment to its caller as an error and never returns a
sentinel, but looking up the key `"a"` in an empty dictionary returns the
sentinel `undefined` (no exception is thrown). -/
theorem c7_counterexample :
    lookupValue (some (Json.dict [])) "a" = Except.ok none :=
  rfl

/-- Claim C7 as amended: a missing final segment makes `lookupValue`
return the sentinel `undefined` and a missing earlier segment makes it
throw a `TypeError`; the translation function `t` then converts a falsy
lookup result into the message-not-found error, so the caller of `t`
always receives an error for an unresolved path and no fallback value is
produced. -/
theorem c7_lookup_not_found :
    (∀ (entries : List (String × Json)) (k : String), objGet entries k = none →
        lookupValueSegs (some (Json.dict entries)) [k] = Except.ok none)
    ∧ (∀ (entries : List (String × Json)) (p : String) (rest : List String), rest ≠ [] →
        objGet entries p = none →
        lookupValueSegs (some (Json.dict entries)) (p :: rest)
          = Except.error "TypeError: cannot read properties of undefined")
    ∧ (∀ (messages : List (String × Json)) (namespaces : List String) (key : String)
        (subs : List (String × String)) (ns selector : String) (nsMessages : Json),
        parseKey key namespaces = Except.ok (ns, selector) →
        objGet messages ns = some nsMessages →
        jsTruthy nsMessages = true →
        lookupValue (some nsMessages) selector = Except.ok none →
        tApply messages namespaces key subs
          = Except.error (I18nError.messageNotFound ns selector)) := by
  refine ⟨?_, ?_, ?_⟩
  · intro entries k h
    simp [lookupValueSegs, jsIndex, h]
  · intro entries p rest hne h
    cases rest with
    | nil => exact absurd rfl hne
    | cons r rs =>
      have hidx : jsIndex (some (Json.dict entries)) p = Except.ok none := by
        simp [jsIndex, h]
      have hrec := lookupValueSegs_none_of_ne_nil (r :: rs) (by simp)
      simp [lookupValueSegs, hidx, Bind.bind, Except.bind, hrec]
  · intro messages namespaces key subs ns selector nsMessages hparse hobj htruthy hlook
    simp [tApply, hparse, hobj, jsTruthyOpt, htruthy, hlook]

/-- Claim C9: the loaded-messages cache has an entry for exactly the
maximized supported locales — established by the constructor (first
conjunct) and preserved by every `#fetchMessages` call (second conjunct,
which also leaves the supported map untouched) — and fetching never
dereferences a missing entry: `#fetchMessages` cannot crash when its
locale is a cache key (third conjunct), and the public `loadMessages`,
which fetches only locales vetted by `#normalizeLocale`, can never reach
the crashing `none` outcome of the unchecked
`this.#loadedMessages[locale]!` write (fourth conjunct). -/
theorem c9_cache_entry_invariant :
    (∀ (ls nss : List String) (tmpl : String) (e : I18n),
        mkI18n ls nss tmpl = Except.ok e →
        e.loadedMessages.map Prod.fst = supportedLocales e)
    ∧ (∀ (oracle : Oracle) (e : I18n) (l d ns : String) (r : Except I18nError Json)
        (e' : I18n) (b : Bool),
        fetchMessages oracle e l d ns = some (r, e', b) →
        e'.supported = e.supported
          ∧ e'.loadedMessages.map Prod.fst = e.loadedMessages.map Prod.fst)
    ∧ (∀ (oracle : Oracle) (e : I18n) (l d ns : String),
        l ∈ e.loadedMessages.map Prod.fst →
        fetchMessages oracle e l d ns ≠ none)
    ∧ (∀ (oracle : Oracle) (e : I18n) (loc : Option String) (nss : List String),
        e.loadedMessages.map Prod.fst = supportedLocales e →
        loadMessages oracle e loc nss ≠ none) :=
  ⟨fun _ _ _ _ h => mkI18n_cache_keys h,
   fun _ _ _ _ _ _ _ _ h => fetchMessages_preserves h,
   fun _ _ _ _ _ hm => fetchMessages_ne_none_of_mem hm,
   fun oracle e loc nss hinv => loadMessages_not_crash oracle e loc nss hinv⟩

/-- Witness for C9: the fixture engine satisfies the invariant and a full
`loadMessages` call for `"fr"` with the `drama` namespace does not crash. -/
theorem c9_cache_entry_invariant_witness :
    fixtureI18n.loadedMessages.map Prod.fst = supportedLocales fixtureI18n
    ∧ loadMessages fixtureOracle fixtureI18n (some "fr") ["drama"] ≠ none :=
  ⟨rfl, c9_cache_entry_invariant.2.2.2 fixtureOracle fixtureI18n (some "fr") ["drama"] rfl⟩

/-- Claim C4: locale maximization is idempotent on every valid BCP 47
identifier, and the maximized form always satisfies `isMaximizedLocale`. -/
theorem c4_maximize_idempotent (s : String) (hv : isValidRfc5646Locale s = true) :
    ∃ m, maximizeLocale s = some m ∧ maximizeLocale m = some m
      ∧ isMaximizedLocale m = some true := by
  unfold isValidRfc5646Locale at hv
  cases hp : parseLocale s with
  | none => rw [hp] at hv; simp at hv
  | some t =>
    have hmax : maximizeLocale s = some (renderTag (fillTag t)) := by
      simp [maximizeLocale, hp]
    exact ⟨renderTag (fillTag t), hmax, maximize_idem hmax, isMaximized_of_maximize hmax⟩

/-- Witness for C4 at the partly specified identifier `"fr-FR"`, which
maximizes to `"fr-Latn-FR"`. -/
theorem c4_maximize_idempotent_witness :
    isValidRfc5646Locale "fr-FR" = true
    ∧ ∃ m, maximizeLocale "fr-FR" = some m ∧ maximizeLocale m = some m
        ∧ isMaximizedLocale m = some true :=
  ⟨rfl, c4_maximize_idempotent "fr-FR" rfl⟩

/-- Claim C5: a dictionary successfully fetched and stored for a
(locale, namespace) pair is afterwards served from the cache: any later
`#fetchMessages` call for the same pair returns the same dictionary with
no source consultation (fetched flag `false`, any oracle, any declared-as
string) and leaves the state unchanged; and a failed fetch never stores a
cache entry (the engine state is returned unchanged), so a later retry is
not blocked. -/
theorem c5_cache_round_trip :
    (∀ (oracle : Oracle) (e : I18n) (l d ns : String) (msgs : Json) (e' : I18n),
        fetchMessages oracle e l d ns = some (Except.ok msgs, e', true) →
        ∀ (oracle2 : Oracle) (d2 : String),
          fetchMessages oracle2 e' l d2 ns = some (Except.ok msgs, e', false))
    ∧ (∀ (oracle : Oracle) (e : I18n) (l d ns : String) (err : I18nError) (e' : I18n) (b : Bool),
        fetchMessages oracle e l d ns = some (Except.error err, e', b) → e' = e) := by
  constructor
  · intro oracle e l d ns msgs e' h oracle2 d2
    obtain ⟨hdict, cached, hcc, he⟩ := fetchMessages_ok_fetched_inv h
    subst he
    simp [fetchMessages, objGet_objInsert_self, jsTruthy_of_isDictionary hdict]
  · intro oracle e l d ns err e' b h
    exact fetchMessages_error_inv h

/-- Witness for C5: the fixture dictionary is fetched once for
(`en-Latn-US`, `common`); the second request is served from the cache with
no fetch even against an oracle that would fail, and a failing first
fetch leaves the engine unchanged. -/
theorem c5_cache_round_trip_witness :
    fetchMessages fixtureOracle fixtureI18n "en-Latn-US" "en" "common"
      = some (Except.ok fixtureDict, fixtureFetched, true)
    ∧ fetchMessages ((fun _ => Except.error (I18nError.badResponse 404)) : Oracle)
        fixtureFetched "en-Latn-US" "en" "common"
      = some (Except.ok fixtureDict, fixtureFetched, false)
    ∧ fetchMessages ((fun _ => Except.error (I18nError.badResponse 404)) : Oracle)
        fixtureI18n "en-Latn-US" "en" "common"
      = some (Except.error (I18nError.badResponse 404), fixtureI18n, true) :=
  ⟨rfl,
   c5_cache_round_trip.1 fixtureOracle fixtureI18n "en-Latn-US" "en" "common" fixtureDict
     fixtureFetched rfl ((fun _ => Except.error (I18nError.badResponse 404)) : Oracle) "en",
   rfl⟩

/-- Claim C6: batch validations report the complete offending set in one
error: the constructor names every invalid supported locale at once, and
`loadMessages` names every undeclared requested namespace (deduplicated,
in request order) rather than only the first. -/
theorem c6_batch_validation_errors :
    (∀ ls : List String,
        ls.filter (fun l => !isValidRfc5646Locale l) ≠ [] →
        validateSupportedLocales ls
          = Except.error (I18nError.invalidSupportedLocales
              (ls.filter (fun l => !isValidRfc5646Locale l))))
    ∧ (∀ (ls nss : List String) (tmpl : String),
        ls.filter (fun l => !isValidRfc5646Locale l) ≠ [] →
        mkI18n ls nss tmpl
          = Except.error (I18nError.invalidSupportedLocales
              (ls.filter (fun l => !isValidRfc5646Locale l))))
    ∧ (∀ (oracle : Oracle) (e : I18n) (loc : Option String) (nss : List String),
        (dedupFirst nss).filter (fun ns => !e.nsDeclared.contains ns) ≠ [] →
        loadMessages oracle e loc nss
          = some (Except.error (I18nError.undeclaredNamespaces
              ((dedupFirst nss).filter (fun ns => !e.nsDeclared.contains ns))), e)) := by
  refine ⟨validateSupportedLocales_invalid, mkI18n_invalid_locales, ?_⟩
  intro oracle e loc nss h
  have hv := validateNamespaces_undeclared e nss h
  simp [loadMessages, hv]

/-- Witness for C6: the repository's own test inputs — three invalid
locale strings rejected together at construction, and two undeclared
namespaces rejected together by `loadMessages`. -/
theorem c6_batch_validation_errors_witness :
    (["fr-Latn-FR", "en_US", "zh-CN-UTF-8", "en-GB@euro"] : List String).filter
        (fun l => !isValidRfc5646Locale l) ≠ []
    ∧ mkI18n ["fr-Latn-FR", "en_US", "zh-CN-UTF-8", "en-GB@euro"] [] fixtureTemplate
        = Except.error (I18nError.invalidSupportedLocales ["en_US", "zh-CN-UTF-8", "en-GB@euro"])
    ∧ (dedupFirst ["doesnt-exist", "neither-does-this"]).filter
        (fun ns => !fixtureI18n.nsDeclared.contains ns) ≠ []
    ∧ loadMessages fixtureOracle fixtureI18n (some "en") ["doesnt-exist", "neither-does-this"]
        = some (Except.error (I18nError.undeclaredNamespaces
            ["doesnt-exist", "neither-does-this"]), fixtureI18n) := by
  refine ⟨by decide, ?_, by decide, ?_⟩
  · have h := c6_batch_validation_errors.2.1 ["fr-Latn-FR", "en_US", "zh-CN-UTF-8", "en-GB@euro"]
      [] fixtureTemplate (by decide)
    simpa using h
  · have h := c6_batch_validation_errors.2.2 fixtureOracle fixtureI18n (some "en")
      ["doesnt-exist", "neither-does-this"] (by decide)
    simpa using h

/-- Claim C8: for a constructor input of valid locales with pairwise
distinct maximizations, `supportedLocales()` returns exactly those
maximized forms in declaration order; the second conjunct is the spec's
concrete scenario for `["en", "fr", "fr-Arab"]`. -/
theorem c8_supported_locales_order :
    (∀ (ls nss : List String) (tmpl : String) (e : I18n) (ms : List String),
        mkI18n ls nss tmpl = Except.ok e →
        ls.map maximizeLocale = ms.map some →
        ms.Nodup →
        supportedLocales e = ms)
    ∧ supportedLocales fixtureI18n = ["en-Latn-US", "fr-Latn-FR", "fr-Arab-FR"] := by
  constructor
  · intro ls nss tmpl e ms hmk hmap hnodup
    obtain ⟨entries, hb, hsup, -, -, -⟩ := mkI18n_ok_inv hmk
    obtain ⟨h1, _⟩ := buildSupportedEntries_spec ls entries hb
    have hms : ms = entries.map Prod.fst := by
      have hx : ms.map some = (entries.map Prod.fst).map some := hmap.symm.trans h1
      exact List.map_injective_iff.mpr (Option.some_injective _) hx
    have hnodup' : (entries.map Prod.fst).Nodup := hms ▸ hnodup
    rw [supportedLocales, hsup, objFromEntries_of_nodup entries hnodup', hms]
  · rfl

/-- Witness for C8: the fixture construction satisfies the hypotheses and
returns the three maximized locales in declaration order. -/
theorem c8_supported_locales_order_witness :
    mkI18n ["en", "fr", "fr-Arab"] ["drama"] fixtureTemplate = Except.ok fixtureI18n
    ∧ (["en", "fr", "fr-Arab"] : List String).map maximizeLocale
        = (["en-Latn-US", "fr-Latn-FR", "fr-Arab-FR"] : List String).map some
    ∧ (["en-Latn-US", "fr-Latn-FR", "fr-Arab-FR"] : List String).Nodup
    ∧ supportedLocales fixtureI18n = ["en-Latn-US", "fr-Latn-FR", "fr-Arab-FR"] :=
  ⟨rfl, rfl, by decide,
   c8_supported_locales_order.1 ["en", "fr", "fr-Arab"] ["drama"] fixtureTemplate fixtureI18n
     ["en-Latn-US", "fr-Latn-FR", "fr-Arab-FR"] rfl rfl (by decide)⟩

/-- Claim C10 counterexample: the claim predicts that binding `name` to
the empty string makes `t` fail naming `name` for every template
containing the placeholder `\x7b\x7bname\x7d\x7d`; on the two-placeholder
template below the greedy regex instead reports the merged span
`a\x7d\x7d \x7b\x7bname` even though `name` is bound (to `""`) and `a` is
bound to a non-empty value. -/
theorem c10_counterexample :
    objGet [("a", "x"), ("name", "")] "name" = some ""
    ∧ substitutePlaceholders "\x7b\x7ba\x7d\x7d \x7b\x7bname\x7d\x7d" [("a", "x"), ("name", "")]
      = Except.error (I18nError.missingSubstitution "a\x7d\x7d \x7b\x7bname") :=
  ⟨rfl, by simp [substitutePlaceholders, substAux, findGreedy, lastBracePos, objGet, Except.map]⟩

/-- Claim C10 as amended: in any template in which
`\x7b\x7bname\x7d\x7d` is the placeholder the greedy matcher captures
(nothing before it contains an opening brace, nothing after it on the
line contains a closing brace), a substitutions map that binds `name` to
the empty string makes the translation fail naming `name` as missing even
though the entry is present — substitution values are tested for
truthiness, not key presence. -/
theorem c10_empty_substitution_missing (pre name post : String)
    (subs : List (String × String))
    (hpre : ∀ c ∈ pre.data, c ≠ '{')
    (hne : name.data ≠ [])
    (hname : ∀ c ∈ name.data, c ≠ '}' ∧ c ≠ '\n' ∧ c ≠ '\r')
    (hpost : ∀ c ∈ post.data, c ≠ '}')
    (hsub : objGet subs name = some "") :
    substitutePlaceholders (pre ++ "\x7b\x7b" ++ name ++ "\x7d\x7d" ++ post) subs
      = Except.error (I18nError.missingSubstitution name) := by
  unfold substitutePlaceholders
  have hob : ("\x7b\x7b" : String).data = ['{', '{'] := rfl
  have hcb : ("\x7d\x7d" : String).data = ['}', '}'] := rfl
  have hdata : (pre ++ "\x7b\x7b" ++ name ++ "\x7d\x7d" ++ post).data
      = pre.data ++ '{' :: '{' :: (name.data ++ '}' :: '}' :: post.data) := by
    simp [string_data_append, hob, hcb, List.append_assoc]
  have hsub' : objGet subs (String.mk name.data) = some "" ∨
      objGet subs (String.mk name.data) = none := Or.inl hsub
  rw [hdata, substAux_missing subs pre.data name.data post.data hpre hne hname hpost hsub']
  rfl

/-- Witness for C10's amended theorem: in
`"Hello, \x7b\x7bname\x7d\x7d!"` with `name` bound to `""`, translation
fails naming `name`. -/
theorem c10_empty_substitution_missing_witness :
    (∀ c ∈ ("Hello, " : String).data, c ≠ '{')
    ∧ ("name" : String).data ≠ []
    ∧ (∀ c ∈ ("name" : String).data, c ≠ '}' ∧ c ≠ '\n' ∧ c ≠ '\r')
    ∧ (∀ c ∈ ("!" : String).data, c ≠ '}')
    ∧ objGet [("name", "")] "name" = some ""
    ∧ substitutePlaceholders ("Hello, " ++ "\x7b\x7b" ++ "name" ++ "\x7d\x7d" ++ "!")
        [("name", "")] = Except.error (I18nError.missingSubstitution "name") :=
  ⟨by decide, by decide, by decide, by decide, rfl,
   c10_empty_substitution_missing "Hello, " "name" "!" [("name", "")] (by decide) (by decide)
     (by decide) (by decide) rfl⟩

/-- Witness for C7's amended theorem: looking up the unbound key
`"missing"` through `t` yields the message-not-found error. -/
theorem c7_lookup_not_found_witness :
    parseKey "missing" [] = Except.ok ("common", "missing")
    ∧ objGet [("common", Json.dict [])] "common" = some (Json.dict [])
    ∧ jsTruthy (Json.dict []) = true
    ∧ lookupValue (some (Json.dict [])) "missing" = Except.ok none
    ∧ tApply [("common", Json.dict [])] [] "missing" []
        = Except.error (I18nError.messageNotFound "common" "missing") :=
  ⟨rfl, rfl, rfl, rfl,
   c7_lookup_not_found.2.2 [("common", Json.dict [])] [] "missing" [] "common" "missing"
     (Json.dict []) rfl rfl rfl rfl⟩

end WebsnacksI18n
